import Mathlib

/-!
# Daruma Otoshi simulator: game logic of `Assignment_4/src/main.cpp`

A shallow embedding of the game logic of `main.cpp`: the win/loss evaluation
(`gameState`), the cursor motion sampler (`sampleCursorVel`), the physical
calibration (`initPhysicalLaws`), the view transformations
(`ViewTransformations`, `getCursorPosInWorld`) and the hit detection loop
(`checkForHit`).

Numbers are elements of an ordered field `K` (exact arithmetic, no rounding);
every definition is computable and can be evaluated at `K = ℚ`. The square root
that `normalized()` takes is a parameter `sqrt : K → K` of the definitions that need
it; the theorems about the game camera assume that it is the non-negative square
root, and are used with `Real.sqrt`.
-/

namespace Daruma

/-! ## Data model -/

/-- A point or direction of world space (`Eigen::Vector3f`). -/
abbrev Vec3 (K : Type) := Fin 3 → K

/-- A homogeneous point (`Eigen::Vector4f`). -/
abbrev Vec4 (K : Type) := Fin 4 → K

/-- A 4x4 transformation (`Eigen::MatrixXf` of size 4x4). -/
abbrev Mat4 (K : Type) := Matrix (Fin 4) (Fin 4) K

/-- The members of a `Block` that `main.cpp` reads or writes. The class itself is
declared in `Helpers.h`; all its other members (transform, velocities, links)
are kept in `rest`, of an arbitrary type `β`. -/
structure Block (K : Type) (β : Type) where
  state : String
  xMinBound : K
  xMaxBound : K
  yMinBound : K
  yMaxBound : K
  minTargetAccel : K
  maxTargetAccel : K
  rest : β

/-- The six blocks `meshObjects[0..5]`, bottom to top. -/
abbrev Blocks (K : Type) (β : Type) := Fin 6 → Block K β

/-! ## Game state evaluation (`gameState`, lines 317-326) -/

/-- Returns 1 if the player won, -1 if the player lost, 0 if the game is not
over yet: `meshObjects[5]` is tested for "base" first, then the blocks are
scanned from index 0 to 5 for "boo". -/
def gameState {K β : Type} (meshObjects : Blocks K β) : Int :=
  if (meshObjects 5).state = "base" then 1
  else if (List.finRange 6).any (fun i => decide ((meshObjects i).state = "boo")) then -1
  else 0

/-- A block in the given state, all other members zero. -/
def blockInState (K : Type) [Zero K] (s : String) : Block K Unit :=
  { state := s, xMinBound := 0, xMaxBound := 0, yMinBound := 0, yMaxBound := 0,
    minTargetAccel := 0, maxTargetAccel := 0, rest := () }

/-- Six blocks whose states are the six given strings, bottom to top. -/
def blocksInStates (s0 s1 s2 s3 s4 s5 : String) : Blocks ℚ Unit :=
  fun i => blockInState ℚ (![s0, s1, s2, s3, s4, s5] i)

/-! ## Motion sampler (`sampleCursorVel`, lines 201-227) -/

/-- World units to meters, for a block of diameter 1.5 inches (line 22). -/
def METERSPERWORLDUNITS {K : Type} [LinearOrderedField K] : K := 0.0518226

/-- Gravitational acceleration in m/s^2 (line 21). -/
def GRAVITATIONALACCEL {K : Type} [LinearOrderedField K] : K := 9.80665

/-- The globals of the motion sampler: the deques `cursorXVelocities` and
`cursorXSamples` (front = head of the list) and `currAcceleration`.
`currAcceleration = none` stands for an indeterminate value: one computed from
the local `lastMeasuredVelocity` while that variable is still uninitialised. -/
structure Sampler (K : Type) where
  cursorXVelocities : List K
  cursorXSamples : List K
  currAcceleration : Option K

/-- The sampler at program start: empty deques, zero-initialised global. -/
def Sampler.init {K : Type} [LinearOrderedField K] : Sampler K :=
  { cursorXVelocities := [], cursorXSamples := [], currAcceleration := some 0 }

/-- One call of `sampleCursorVel`, the cursor's world X (`cursorPos.x()`) and the
measured `interval` being inputs. The result is `none` when the call would take
`back()` of an empty deque (undefined behaviour).

* `cursorXSamples.size() == 0`: only the position is recorded;
* otherwise: both deques lose their front when `cursorXVelocities.size() > 2`;
  `lastMeasuredVelocity` is assigned only when `cursorXVelocities.size() > 1`
  (else it stays uninitialised, `none`); the new velocity and position are pushed;
  `currAcceleration` is rewritten when `cursorXVelocities.size() > 1` then. -/
def sampleCursorVel {K : Type} [LinearOrderedField K] (cursorX interval : K) (s : Sampler K) :
    Option (Sampler K) :=
  if s.cursorXSamples.length = 0 then
    some { s with cursorXSamples := s.cursorXSamples ++ [cursorX] }
  else
    let popped : Bool := decide (s.cursorXVelocities.length > 2)
    let velocities := if popped then s.cursorXVelocities.tail else s.cursorXVelocities
    let samples := if popped then s.cursorXSamples.tail else s.cursorXSamples
    let lastMeasuredVelocity : Option K :=
      if velocities.length > 1 then velocities.getLast? else none
    match samples.getLast? with
    | none => none
    | some lastX =>
      let newVelocity := (cursorX - lastX) / interval
      let velocities2 := velocities ++ [newVelocity]
      let samples2 := samples ++ [cursorX]
      let acceleration : Option K :=
        if velocities2.length > 1 then
          lastMeasuredVelocity.map (fun l => ((newVelocity - l) / interval) * METERSPERWORLDUNITS)
        else s.currAcceleration
      some { cursorXVelocities := velocities2, cursorXSamples := samples2,
             currAcceleration := acceleration }

/-- A sequence of calls of `sampleCursorVel`, one per `(cursor X, interval)` pair, in
order; `none` as soon as one call is undefined. -/
def feed {K : Type} [LinearOrderedField K] : List (K × K) → Sampler K → Option (Sampler K)
  | [], s => some s
  | p :: ps, s => (sampleCursorVel p.1 p.2 s).bind (feed ps)

/-- The last `k` entries of a list, in order (all of it when it is shorter). -/
def lastN {α : Type} (k : Nat) (l : List α) : List α := l.drop (l.length - k)

/-- Every velocity that a sequence of samples defines: from the second sample on,
(this position - previous position) / this interval. -/
def computedVelocities {K : Type} [LinearOrderedField K] : List (K × K) → List K
  | [] => []
  | [_] => []
  | p :: q :: rest => (q.1 - p.1) / q.2 :: computedVelocities (q :: rest)

/-! ## Physical calibration (`initPhysicalLaws`, lines 298-315) -/

/-- The body of `initPhysicalLaws`: returns the global `frictionCoeff` and the blocks,
each with its window `targetAccel - leniency`, `targetAccel + leniency`, and block 0
in state "base". -/
def initPhysicalLaws {K β : Type} [LinearOrderedField K] (staticFriction leniency mass : K)
    (meshObjects : Blocks K β) : K × Blocks K β :=
  let frictionCoeff := staticFriction
  let fg := mass * GRAVITATIONALACCEL
  let maxFrictionalForce := fg * frictionCoeff
  let targetAccel := maxFrictionalForce / mass
  let calibrated : Blocks K β := fun i =>
    { meshObjects i with
      minTargetAccel := targetAccel - leniency
      maxTargetAccel := targetAccel + leniency }
  (frictionCoeff, Function.update calibrated 0 { calibrated 0 with state := "base" })

/-! ## View transformations (`ViewTransformations`, lines 42-142) -/

/-- The data members of `ViewTransformations` that are read after they are written
(`w`, `u`, `v` are scratch values of `getMCam`). -/
structure ViewTransformations (K : Type) where
  windowyShift : K
  camPos : Vec3 K
  cam_A : Mat4 K
  view_A : Mat4 K
  window_A : Mat4 K
  lbn : Vec3 K
  rtf : Vec3 K

/-- The constructor followed by `setVisibleWorldlbn` and `setVisibleWorldrtf`: the three
matrices are the identity, `windowyShift = -0.3`, then `cam_A *= 3.0/4.0`. -/
def ViewTransformations.create {K : Type} [LinearOrderedField K] (camPos lbn rtf : Vec3 K) :
    ViewTransformations K :=
  { windowyShift := -0.3
    camPos := camPos
    cam_A := (3 / 4 : K) • (1 : Mat4 K)
    view_A := 1
    window_A := 1
    lbn := lbn
    rtf := rtf }

/-- Does `updateView(code)` for a window of `width` x `height` pixels: zoom out (`code = 0`)
multiplies `cam_A` by 0.8, zoom in (`code = 1`) by 1.2; `window_A` is the identity with
column 0 scaled by `xScale` and column 1 by `yScale`; `setView` stores
`view_A = window_A * cam_A`. -/
def updateView {K : Type} [LinearOrderedField K] (code : Int) (width height : Int)
    (vt : ViewTransformations K) : ViewTransformations K :=
  let cam_A : Mat4 K :=
    if code = 0 then (0.8 : K) • vt.cam_A
    else if code = 1 then (1.2 : K) • vt.cam_A
    else vt.cam_A
  let xScale : K := 1 / ((width : K) / 600)
  let yScale : K := 1 / ((height : K) / 600)
  let window_A : Mat4 K := Matrix.of fun i j =>
    if j = 0 then xScale * (1 : Mat4 K) i j
    else if j = 1 then yScale * (1 : Mat4 K) i j
    else (1 : Mat4 K) i j
  { vt with cam_A := cam_A, window_A := window_A, view_A := window_A * cam_A }

/-- The scalar product of two vectors. -/
def dot {K : Type} [LinearOrderedField K] (a b : Vec3 K) : K :=
  a 0 * b 0 + a 1 * b 1 + a 2 * b 2

/-- The vector product `a.cross(b)`. -/
def cross {K : Type} [LinearOrderedField K] (a b : Vec3 K) : Vec3 K :=
  ![a 1 * b 2 - a 2 * b 1, a 2 * b 0 - a 0 * b 2, a 0 * b 1 - a 1 * b 0]

/-- Eigen's `normalized()`: the vector divided by its norm, or the vector itself when
its squared norm is not positive. The square root is a parameter. -/
def normalized {K : Type} [LinearOrderedField K] (sqrt : K → K) (a : Vec3 K) : Vec3 K :=
  if 0 < dot a a then fun i => a i / sqrt (dot a a) else a

/-- Eigen's `inverse()` of a 4x4 matrix, by the adjugate. -/
def inverse {K : Type} [LinearOrderedField K] (A : Mat4 K) : Mat4 K :=
  (A.det)⁻¹ • A.adjugate

/-- The matrix with columns `u`, `v`, `w`, `camPos` and last row `0 0 0 1`, which
`getMCam` inverts. -/
def camFrame {K : Type} [LinearOrderedField K] (sqrt : K → K) (camPos : Vec3 K) : Mat4 K :=
  let w := normalized sqrt camPos
  let u : Vec3 K := fun i => normalized sqrt (cross w ![0, 1, 0]) i * (-1)
  let v := cross w u
  !![u 0, v 0, w 0, camPos 0;
     u 1, v 1, w 1, camPos 1;
     u 2, v 2, w 2, camPos 2;
     0, 0, 0, 1]

/-- The world-to-camera matrix `getMCam()`. -/
def getMCam {K : Type} [LinearOrderedField K] (sqrt : K → K) (vt : ViewTransformations K) :
    Mat4 K :=
  inverse (camFrame sqrt vt.camPos)

/-- The orthographic matrix `getMOrth()` of the visible box `lbn`, `rtf`. -/
def getMOrth {K : Type} [LinearOrderedField K] (vt : ViewTransformations K) : Mat4 K :=
  let l := vt.lbn 0
  let b := vt.lbn 1
  let n := vt.lbn 2
  let r := vt.rtf 0
  let t := vt.rtf 1
  let f := vt.rtf 2
  !![2 / (r - l), 0, 0, (-1) * (r + l) / (r - l);
     0, 2 / (t - b), 0, (-1) * (t + b) / (t - b);
     0, 0, -2 / (n - f), (-1) * (n + f) / (n - f);
     0, 0, 0, 1]

/-- The projection `getM() = getMOrth() * getMCam()`. -/
def getM {K : Type} [LinearOrderedField K] (sqrt : K → K) (vt : ViewTransformations K) :
    Mat4 K :=
  getMOrth vt * getMCam sqrt vt

/-- The world position of the cursor, `getCursorPosInWorld()`, for the cursor at pixel
`(xpos, ypos)` of a window of `width` x `height` pixels (lines 146-174). -/
def getCursorPosInWorld {K : Type} [LinearOrderedField K] (sqrt : K → K)
    (viewTrans : ViewTransformations K) (xpos ypos : K) (width height : Int) : K × K :=
  let xworld : K := ((xpos / (width : K)) * 2) - 1
  let yworld : K := ((((height : K) - 1 - ypos) / (height : K)) * 2) - 1
  let pointTransform : Mat4 K := inverse (viewTrans.view_A * getM sqrt viewTrans)
  let cursorPos4f : Vec4 K :=
    pointTransform.mulVec ![xworld, yworld + viewTrans.windowyShift * (-1), 0, 1]
  let viewShift0 : Vec3 K := fun i => viewTrans.camPos i * (-1)
  let viewShift1 : Vec3 K := Function.update viewShift0 2 0
  let viewShift : Vec3 K := fun i => viewShift1 i * (1 / viewTrans.cam_A 0 0)
  let cursorPos : Vec3 K :=
    fun i => ![cursorPos4f 0, cursorPos4f 1, cursorPos4f 2] i + viewShift i
  (cursorPos 0, cursorPos 1)

/-- The vertex shader's `gl_Position` (lines 384-387) from the uniforms `view`, `M`,
`Transformation`, `windowShift` and the vertex `position`. -/
def vertexShader {K : Type} [LinearOrderedField K] (view M Transformation : Mat4 K)
    (windowShift : K) (position : Vec3 K) : Vec4 K :=
  let vec4pos : Vec4 K := ![position 0, position 1, position 2, 1]
  let newM := view * (M * Transformation)
  let newPos := newM.mulVec vec4pos
  ![newPos 0, newPos 1 + windowShift, newPos 2, 1]

/-- The cursor pixel that `getCursorPosInWorld` maps to the normalized device
coordinates `(x, y)`, in a window of `width` x `height` pixels. -/
def cursorPixel {K : Type} [LinearOrderedField K] (x y : K) (width height : Int) : K × K :=
  ((x + 1) / 2 * (width : K), (height : K) - 1 - (y + 1) / 2 * (height : K))

/-- The view of the game at start (lines 436-439): camera at (0, 0.5, 4), visible box
(-1.5, -1.5, 1.5) to (1.5, 1.5, -1.5), then `updateView()` in a window of the given
size. -/
def gameView {K : Type} [LinearOrderedField K] (width height : Int) : ViewTransformations K :=
  updateView (-1) width height
    (ViewTransformations.create ![0, 0.5, 4] ![-1.5, -1.5, 1.5] ![1.5, 1.5, -1.5])

/-- A sequence of zoom keys (`updateView(0)`, `updateView(1)`) and redraws
(`updateView()`, code -1) in a window of fixed size. -/
def zoomed {K : Type} [LinearOrderedField K] (codes : List Int) (width height : Int)
    (vt : ViewTransformations K) : ViewTransformations K :=
  codes.foldl (fun v code => updateView code width height v) vt

/-! ## Hit detection (`checkForHit`, lines 229-251) -/

/-- The arguments of one call `currBlock->hit(cursorXVelocities, targetCursorX, face,
currAcceleration, cheatMode)`, with the index of the block it is invoked on. -/
structure HitCall (K : Type) where
  block : Fin 6
  cursorXVelocities : List K
  targetCursorX : K
  contact : Vec3 K
  currAcceleration : Option K
  cheatMode : Int

/-- What `checkForHit` reads: the hammer's two faces in world space
(`hammer->getTransformed(hammer->leftFace)`, likewise right), the sampler globals with
a non-empty position history (`sampleCursorVel` runs before `checkForHit` in every
frame), `cheatMode`, and the two methods of `Block` that `Helpers.h` defines:
`getTransformed`, and the effect of `hit` on the six blocks (a call may change any of
them, through the `above` and `below` links; it leaves its arguments and the globals
of `main.cpp` as they are). -/
structure HitEnv (K : Type) (β : Type) where
  leftFace : Vec3 K
  rightFace : Vec3 K
  sampler : Sampler K
  samplesNonempty : sampler.cursorXSamples ≠ []
  cheatMode : Int
  getTransformed : Block K β → Vec3 K → Vec3 K
  hit : HitCall K → Blocks K β → Blocks K β

/-- The call made for a left-side hit on block `i` (line 243). -/
def leftHit {K β : Type} [LinearOrderedField K] (env : HitEnv K β) (i : Fin 6) : HitCall K :=
  { block := i
    cursorXVelocities := env.sampler.cursorXVelocities
    targetCursorX := env.sampler.cursorXSamples.getLast env.samplesNonempty + 5
    contact := env.leftFace
    currAcceleration := env.sampler.currAcceleration
    cheatMode := env.cheatMode }

/-- The call made for a right-side hit on block `i` (line 247). -/
def rightHit {K β : Type} [LinearOrderedField K] (env : HitEnv K β) (i : Fin 6) : HitCall K :=
  { block := i
    cursorXVelocities := env.sampler.cursorXVelocities
    targetCursorX := env.sampler.cursorXSamples.getLast env.samplesNonempty - 5
    contact := env.rightFace
    currAcceleration := env.sampler.currAcceleration
    cheatMode := env.cheatMode }

/-- The body of the loop of `checkForHit` for block `i`, on the blocks as they are then
and the calls of `hit` made so far. -/
def checkBlock {K β : Type} [LinearOrderedField K] (env : HitEnv K β) (i : Fin 6)
    (st : Blocks K β × List (HitCall K)) : Blocks K β × List (HitCall K) :=
  let currBlock := st.1 i
  let xMinBound := env.getTransformed currBlock ![currBlock.xMinBound, 0, 0] 0
  let xMaxBound := env.getTransformed currBlock ![currBlock.xMaxBound, 0, 0] 0
  if env.leftFace 1 < currBlock.yMaxBound ∧ env.leftFace 1 > currBlock.yMinBound ∧
      currBlock.state = "base" then
    if env.leftFace 0 ≤ xMaxBound ∧ env.leftFace 0 ≥ xMinBound then
      (env.hit (leftHit env i) st.1, st.2 ++ [leftHit env i])
    else if env.rightFace 0 ≥ xMinBound ∧ env.rightFace 0 ≤ xMaxBound then
      (env.hit (rightHit env i) st.1, st.2 ++ [rightHit env i])
    else st
  else st

/-- The loop of `checkForHit` over the given block indices. -/
def checkForHitLoop {K β : Type} [LinearOrderedField K] (env : HitEnv K β)
    (indices : List (Fin 6)) (st : Blocks K β × List (HitCall K)) :
    Blocks K β × List (HitCall K) :=
  indices.foldl (fun acc i => checkBlock env i acc) st

/-- The blocks after `checkForHit()`, and the calls of `hit` it made, in order. -/
def checkForHit {K β : Type} [LinearOrderedField K] (env : HitEnv K β)
    (meshObjects : Blocks K β) : Blocks K β × List (HitCall K) :=
  checkForHitLoop env (List.finRange 6) (meshObjects, [])

/-- Block `i` as the loop of `checkForHit` finds it: after the iterations for the
blocks below it. -/
def blockWhenChecked {K β : Type} [LinearOrderedField K] (env : HitEnv K β)
    (meshObjects : Blocks K β) (i : Fin 6) : Block K β :=
  (checkForHitLoop env ((List.finRange 6).take i) (meshObjects, [])).1 i

/-- The calls of `hit` that `checkForHit` makes on block `i`, in order. -/
def hitsOn {K β : Type} [LinearOrderedField K] (env : HitEnv K β)
    (meshObjects : Blocks K β) (i : Fin 6) : List (HitCall K) :=
  (checkForHit env meshObjects).2.filter (fun c => decide (c.block = i))

/-- A stack for illustration: block 0 already ejected ("out"), block 1 at the base with
local X extent [-1, 1] and Y band (0, 1), the others stacked above. -/
def exampleBlocks : Blocks ℚ Unit := fun i =>
  { state := ![("out" : String), "base", "stacked", "stacked", "stacked", "stacked"] i
    xMinBound := -1
    xMaxBound := 1
    yMinBound := 0
    yMaxBound := 1
    minTargetAccel := 0
    maxTargetAccel := 0
    rest := () }

/-- A frame for illustration: both hammer faces inside the X extent and the Y band of
block 1, latest cursor sample 2, blocks not transformed, and a `hit` that ejects the
struck block. -/
def exampleEnv : HitEnv ℚ Unit :=
  { leftFace := ![0, 1 / 2, 0]
    rightFace := ![1 / 2, 1 / 2, 0]
    sampler := { cursorXVelocities := [3], cursorXSamples := [1, 2], currAcceleration := some 0 }
    samplesNonempty := by simp
    cheatMode := 0
    getTransformed := fun _ v => v
    hit := fun c blocks => Function.update blocks c.block { blocks c.block with state := "out" } }

/-- A frame for illustration with a tilted hammer: the left face is inside the Y band
of block 1 but to the right of the block, the right face is inside the X extent of
the block but above its Y band. -/
def tiltedEnv : HitEnv ℚ Unit :=
  { leftFace := ![3, 1 / 2, 0]
    rightFace := ![0, 5, 0]
    sampler := { cursorXVelocities := [3], cursorXSamples := [1, 2], currAcceleration := some 0 }
    samplesNonempty := by simp
    cheatMode := 0
    getTransformed := fun _ v => v
    hit := fun c blocks => Function.update blocks c.block { blocks c.block with state := "out" } }

/-- The zoom factor after one `updateView(code)`. -/
def zoomStep {K : Type} [LinearOrderedField K] (code : Int) (s : K) : K :=
  if code = 0 then 0.8 * s else if code = 1 then 1.2 * s else s

/-- The view of the game at zoom factor `s` in a window of `width` x `height` pixels:
the camera, visible box and shift of `gameView`, `cam_A = s * I` and
`view_A = window_A * cam_A`. -/
def IsGameView {K : Type} [LinearOrderedField K] (vt : ViewTransformations K) (s : K)
    (width height : Int) : Prop :=
  vt.camPos = ![0, 0.5, 4] ∧ vt.lbn = ![-1.5, -1.5, 1.5] ∧ vt.rtf = ![1.5, 1.5, -1.5] ∧
    vt.windowyShift = -0.3 ∧ vt.cam_A = s • (1 : Mat4 K) ∧
    vt.view_A = !![1 / ((width : K) / 600) * s, 0, 0, 0;
                   0, 1 / ((height : K) / 600) * s, 0, 0;
                   0, 0, s, 0;
                   0, 0, 0, s]

/-- Draws the world point `p` with the vertex shader (uniforms `view = view_A`,
`M = getM()`, identity `Transformation`, `windowShift = windowyShift`) and feeds the
cursor pixel of the result to `getCursorPosInWorld`. -/
def projectThenUnproject {K : Type} [LinearOrderedField K] (sqrt : K → K)
    (vt : ViewTransformations K) (width height : Int) (p : Vec3 K) : K × K :=
  let screen := vertexShader vt.view_A (getM sqrt vt) 1 vt.windowyShift p
  let pixel := cursorPixel (screen 0) (screen 1) width height
  getCursorPosInWorld sqrt vt pixel.1 pixel.2 width height

/-- The sampler invariant: after the samples `l` have been fed, the velocity deque is
the last 3 computed velocities and the position deque the last 4 positions. -/
def SamplerInv {K : Type} [LinearOrderedField K] (l : List (K × K)) (s : Sampler K) : Prop :=
  s.cursorXVelocities = lastN 3 (computedVelocities l) ∧
    s.cursorXSamples = lastN 4 (l.map Prod.fst)

/-! ## Theorems -/

theorem gameState_of_top_base {K β : Type} (m : Blocks K β) (h : (m 5).state = "base") :
    gameState m = 1 := by
  simp [gameState, h]

theorem any_boo_iff {K β : Type} (m : Blocks K β) :
    (List.finRange 6).any (fun i => decide ((m i).state = "boo")) = true ↔
      ∃ i, (m i).state = "boo" := by
  simp [List.any_eq_true]

/-- C1 (as stated) fails: with block 2 failed ("boo") and every other block "base",
`gameState` returns win (1), not loss (-1). -/
theorem gameState_boo_not_always_loss :
    (blocksInStates "base" "base" "boo" "base" "base" "base" 2).state = "boo" ∧
      gameState (blocksInStates "base" "base" "boo" "base" "base" "base") = 1 ∧
      gameState (blocksInStates "base" "base" "boo" "base" "base" "base") ≠ -1 := by
  refine ⟨rfl, ?_, ?_⟩
  · exact gameState_of_top_base _ rfl
  · rw [gameState_of_top_base _ rfl]; decide

/-- C1 (amended): whenever some block is "boo" and the topmost block (index 5) is
not "base", `gameState` returns loss (-1); when the topmost block is "base" the
result is win (1) whatever the other blocks are. -/
theorem gameState_loss_of_boo {K β : Type} (m : Blocks K β) :
    ((∃ i, (m i).state = "boo") → (m 5).state ≠ "base" → gameState m = -1) ∧
      ((m 5).state = "base" → gameState m = 1) := by
  refine ⟨fun hboo htop => ?_, gameState_of_top_base m⟩
  have hany := (any_boo_iff m).2 hboo
  unfold gameState
  rw [if_neg htop, if_pos hany]

/-- Witness of C1 (amended): block 2 failed, the top block ejected. -/
theorem gameState_loss_of_boo_witness :
    gameState (blocksInStates "base" "base" "boo" "base" "base" "out") = -1 :=
  (gameState_loss_of_boo (blocksInStates "base" "base" "boo" "base" "base" "out")).1
    ⟨2, rfl⟩ (by decide)

/-- C2: `gameState` returns win (1) if and only if the topmost block (index 5) is
"base", for every assignment of states; in particular with block 5 "base" and
every other block in a same arbitrary state `e` (ejected) the result is win. -/
theorem gameState_win_iff {K β : Type} (m : Blocks K β) :
    (gameState m = 1 ↔ (m 5).state = "base") ∧
      ∀ e : String, gameState (blocksInStates e e e e e "base") = 1 := by
  refine ⟨⟨fun h => ?_, gameState_of_top_base m⟩, fun e => gameState_of_top_base _ rfl⟩
  by_contra htop
  unfold gameState at h
  rw [if_neg htop] at h
  split at h <;> simp at h

/-- C3 (as stated) fails: with all six blocks "base", `gameState` returns win (1),
not in-progress (0). -/
theorem gameState_all_base_is_win :
    gameState (blocksInStates "base" "base" "base" "base" "base" "base") = 1 ∧
      gameState (blocksInStates "base" "base" "base" "base" "base" "base") ≠ 0 := by
  refine ⟨gameState_of_top_base _ rfl, ?_⟩
  rw [gameState_of_top_base _ rfl]; decide

/-- C3 (amended): `gameState` returns in-progress (0) exactly when the topmost
block is not "base" and no block is "boo"; with all six blocks "base" it returns
win (1). -/
theorem gameState_in_progress_iff {K β : Type} (m : Blocks K β) :
    (gameState m = 0 ↔ (m 5).state ≠ "base" ∧ ∀ i, (m i).state ≠ "boo") ∧
      ((∀ i, (m i).state = "base") → gameState m = 1) := by
  refine ⟨?_, fun h => gameState_of_top_base m (h 5)⟩
  have hany := any_boo_iff m
  unfold gameState
  by_cases htop : (m 5).state = "base"
  · simp [htop]
  · by_cases hboo : ∃ i, (m i).state = "boo"
    · rw [if_neg htop, if_pos (hany.2 hboo)]
      simp only [htop, not_false_eq_true, true_and, ne_eq]
      constructor
      · intro h; exact absurd h (by decide)
      · intro h; obtain ⟨i, hi⟩ := hboo; exact absurd hi (h i)
    · have hno : ¬ ((List.finRange 6).any (fun i => decide ((m i).state = "boo")) = true) :=
        fun h => hboo (hany.1 h)
      rw [if_neg htop, if_neg hno]
      simp only [htop, not_false_eq_true, true_and, ne_eq, true_iff]
      intro i hi; exact hboo ⟨i, hi⟩

/-- Witness of C3 (amended): only the bottom block is "base", the others stacked. -/
theorem gameState_in_progress_iff_witness :
    gameState (blocksInStates "base" "stacked" "stacked" "stacked" "stacked" "stacked") = 0 :=
  (gameState_in_progress_iff
    (blocksInStates "base" "stacked" "stacked" "stacked" "stacked" "stacked")).1.2
    ⟨by decide, by decide⟩

/-! ### Motion sampler -/

theorem lastN_snoc {α : Type} (k : Nat) (l : List α) (a : α) :
    lastN (k + 1) (l ++ [a]) = lastN k l ++ [a] := by
  unfold lastN
  have h : (l ++ [a]).length - (k + 1) = l.length - k := by simp
  rw [h, List.drop_append_of_le_length (Nat.sub_le _ _)]

theorem length_lastN {α : Type} (k : Nat) (l : List α) :
    (lastN k l).length = min k l.length := by
  unfold lastN
  rw [List.length_drop]; omega

/-- Dropping the front of a window that is full shrinks the window by one. -/
theorem lastN_pop {α : Type} (k : Nat) (l : List α) :
    (if k < l.length then (lastN (k + 1) l).tail else lastN (k + 1) l) = lastN k l := by
  unfold lastN
  split
  · rename_i h
    rw [List.tail_drop]
    congr 1; omega
  · rename_i h
    have h1 : l.length - (k + 1) = 0 := by omega
    have h2 : l.length - k = 0 := by omega
    rw [h1, h2]

theorem getLast?_lastN {α : Type} (k : Nat) (l : List α) :
    (lastN (k + 1) l).getLast? = l.getLast? := by
  unfold lastN
  rcases List.eq_nil_or_concat l with rfl | ⟨l0, a, rfl⟩
  · simp
  · rw [List.concat_eq_append]
    have h : (l0 ++ [a]).length - (k + 1) = l0.length - k := by simp
    rw [h, List.drop_append_of_le_length (Nat.sub_le _ _)]
    simp

theorem computedVelocities_snoc {K : Type} [LinearOrderedField K] (l : List (K × K)) (p q : K × K) :
    computedVelocities (l ++ [p, q]) = computedVelocities (l ++ [p]) ++ [(q.1 - p.1) / q.2] := by
  induction l with
  | nil => simp [computedVelocities]
  | cons a l ih =>
    cases l with
    | nil => simp [computedVelocities]
    | cons b l =>
      have ih2 : computedVelocities (b :: (l ++ [p, q])) =
          computedVelocities (b :: (l ++ [p])) ++ [(q.1 - p.1) / q.2] := ih
      show (b.1 - a.1) / b.2 :: computedVelocities (b :: (l ++ [p, q])) =
        ((b.1 - a.1) / b.2 :: computedVelocities (b :: (l ++ [p]))) ++ [(q.1 - p.1) / q.2]
      rw [ih2]; rfl

theorem length_computedVelocities {K : Type} [LinearOrderedField K] (l : List (K × K)) :
    (computedVelocities l).length = l.length - 1 := by
  induction l with
  | nil => rfl
  | cons a l ih =>
    cases l with
    | nil => rfl
    | cons b l =>
      simp only [computedVelocities, List.length_cons] at ih ⊢
      omega

theorem sampleCursorVel_first {K : Type} [LinearOrderedField K] (x dt : K) (s : Sampler K)
    (h : s.cursorXSamples = []) :
    sampleCursorVel x dt s = some { s with cursorXSamples := [x] } := by
  simp [sampleCursorVel, h]


theorem sampleCursorVel_next {K : Type} [LinearOrderedField K] (x dt : K) (s : Sampler K)
    (vs xs : List K) (lastX : K) (hne : ¬ s.cursorXSamples.length = 0)
    (hvel : (if decide (s.cursorXVelocities.length > 2) = true
        then s.cursorXVelocities.tail else s.cursorXVelocities) = vs)
    (hsam : (if decide (s.cursorXVelocities.length > 2) = true
        then s.cursorXSamples.tail else s.cursorXSamples) = xs)
    (hlast : xs.getLast? = some lastX) :
    sampleCursorVel x dt s = some
      { cursorXVelocities := vs ++ [(x - lastX) / dt],
        cursorXSamples := xs ++ [x],
        currAcceleration :=
          if (vs ++ [(x - lastX) / dt]).length > 1 then
            (if vs.length > 1 then vs.getLast? else none).map
              (fun l => (((x - lastX) / dt - l) / dt) * METERSPERWORLDUNITS)
          else s.currAcceleration } := by
  unfold sampleCursorVel
  rw [if_neg hne]
  simp only [hvel, hsam, hlast]

/-- Under the invariant and after at least one sample: the sampler is past its first
call, and after the conditional eviction the deques are the last 2 computed
velocities and the last 3 positions, the latter ending with the latest position. -/
theorem samplerInv_popped {K : Type} [LinearOrderedField K] (l0 : List (K × K)) (p : K × K)
    (s : Sampler K) (h : SamplerInv (l0 ++ [p]) s) :
    ¬ s.cursorXSamples.length = 0 ∧
      (if decide (s.cursorXVelocities.length > 2) = true
        then s.cursorXVelocities.tail else s.cursorXVelocities) =
        lastN 2 (computedVelocities (l0 ++ [p])) ∧
      (if decide (s.cursorXVelocities.length > 2) = true
        then s.cursorXSamples.tail else s.cursorXSamples) =
        lastN 3 ((l0 ++ [p]).map Prod.fst) ∧
      (lastN 3 ((l0 ++ [p]).map Prod.fst)).getLast? = some p.1 := by
  obtain ⟨hv, hs⟩ := h
  have hlen : (computedVelocities (l0 ++ [p])).length = l0.length := by
    rw [length_computedVelocities]; simp
  refine ⟨?_, ?_, ?_, ?_⟩
  · rw [hs, length_lastN]; simp
  · rw [← lastN_pop 2, hv, length_lastN]
    by_cases h2 : 2 < (computedVelocities (l0 ++ [p])).length
    · rw [if_pos h2, if_pos]; simp; omega
    · rw [if_neg h2, if_neg]; simp; omega
  · rw [← lastN_pop 3, hs, hv, length_lastN]
    by_cases h2 : 2 < (computedVelocities (l0 ++ [p])).length
    · rw [if_pos, if_pos]
      · simp; omega
      · simp; omega
    · rw [if_neg, if_neg]
      · simp; omega
      · simp; omega
  · rw [getLast?_lastN]; simp

theorem sampleCursorVel_inv {K : Type} [LinearOrderedField K] (l : List (K × K)) (x dt : K)
    (s : Sampler K) (h : SamplerInv l s) :
    ∃ s2, sampleCursorVel x dt s = some s2 ∧ SamplerInv (l ++ [(x, dt)]) s2 := by
  rcases List.eq_nil_or_concat l with rfl | ⟨l0, p, rfl⟩
  · obtain ⟨hv, hs⟩ := h
    refine ⟨_, sampleCursorVel_first x dt s (by simpa [lastN] using hs), ?_⟩
    constructor
    · simpa [computedVelocities, lastN] using hv
    · simp [lastN]
  · rw [List.concat_eq_append] at h ⊢
    obtain ⟨hne, hvel, hsam, hlast⟩ := samplerInv_popped l0 p s h
    refine ⟨_, sampleCursorVel_next x dt s _ _ _ hne hvel hsam hlast, ?_⟩
    · constructor
      · show lastN 2 (computedVelocities (l0 ++ [p])) ++ [(x - p.1) / dt] = _
        rw [← lastN_snoc, List.append_assoc]
        show _ = lastN 3 (computedVelocities (l0 ++ [p, (x, dt)]))
        rw [computedVelocities_snoc]
      · show lastN 3 ((l0 ++ [p]).map Prod.fst) ++ [x] = _
        rw [← lastN_snoc]; simp

theorem feed_inv {K : Type} [LinearOrderedField K] (l2 l1 : List (K × K)) (s : Sampler K)
    (h : SamplerInv l1 s) : ∃ s2, feed l2 s = some s2 ∧ SamplerInv (l1 ++ l2) s2 := by
  induction l2 generalizing l1 s with
  | nil => exact ⟨s, rfl, by simpa using h⟩
  | cons p ps ih =>
    obtain ⟨s1, h1, hinv1⟩ := sampleCursorVel_inv l1 p.1 p.2 s h
    obtain ⟨s2, h2, hinv2⟩ := ih (l1 ++ [p]) s1 hinv1
    refine ⟨s2, ?_, by simpa using hinv2⟩
    show (sampleCursorVel p.1 p.2 s).bind (feed ps) = some s2
    rw [h1]; exact h2

theorem samplerInv_init {K : Type} [LinearOrderedField K] :
    SamplerInv ([] : List (K × K)) Sampler.init := ⟨rfl, rfl⟩

/-- From the empty histories every sequence of calls is defined, and leaves the last 3
computed velocities and the last 4 positions. -/
theorem feed_init {K : Type} [LinearOrderedField K] (inputs : List (K × K)) :
    ∃ s, feed inputs Sampler.init = some s ∧ SamplerInv inputs s := by
  simpa using feed_inv inputs [] Sampler.init samplerInv_init

/-- C4 (as stated) fails: after four calls the position history holds 4 entries. -/
theorem cursorXSamples_exceeds_three :
    (feed [((0 : ℚ), (1 : ℚ)), (1, 1), (2, 1), (3, 1)] Sampler.init).map
      (fun s => s.cursorXSamples.length) = some 4 := by
  decide

/-- C4 (amended): starting from empty histories, every finite sequence of calls to
`sampleCursorVel` with non-zero intervals is defined and leaves at most 4 entries in
the position history `cursorXSamples`: the last up-to-4 cursor positions, one more
than the velocity history. -/
theorem cursorXSamples_le_four {K : Type} [LinearOrderedField K] (inputs : List (K × K))
    (hdt : ∀ p ∈ inputs, p.2 ≠ 0) :
    ∃ s, feed inputs Sampler.init = some s ∧ s.cursorXSamples.length ≤ 4 ∧
      s.cursorXSamples = lastN 4 (inputs.map Prod.fst) := by
  have _ := hdt
  obtain ⟨s, hs, -, hx⟩ := feed_init inputs
  refine ⟨s, hs, ?_, hx⟩
  rw [hx, length_lastN]; omega

/-- Witness of C4 (amended): five samples. -/
theorem cursorXSamples_le_four_witness :
    (∀ p ∈ [((0 : ℚ), (1 : ℚ)), (1, 1), (3, 1), (6, 1), (10, 2)], p.2 ≠ 0) ∧
      ∃ s, feed [((0 : ℚ), (1 : ℚ)), (1, 1), (3, 1), (6, 1), (10, 2)] Sampler.init = some s ∧
        s.cursorXSamples.length ≤ 4 ∧
        s.cursorXSamples =
          lastN 4 ([((0 : ℚ), (1 : ℚ)), (1, 1), (3, 1), (6, 1), (10, 2)].map Prod.fst) :=
  ⟨by decide, cursorXSamples_le_four _ (by decide)⟩

theorem getLast?_tail {α : Type} (l : List α) (h : 2 ≤ l.length) :
    l.tail.getLast? = l.getLast? := by
  match l, h with
  | a :: b :: l, _ => simp [List.getLast?_cons_cons]

/-- C5: starting from empty histories, every finite sequence of calls to
`sampleCursorVel` (non-zero intervals) is defined and leaves at most 3 entries in the
velocity history `cursorXVelocities`, namely the last up-to-3 computed velocities in
order; and once the history is full, a further call evicts exactly the oldest velocity
and appends the new one. -/
theorem cursorXVelocities_fifo {K : Type} [LinearOrderedField K] (inputs : List (K × K))
    (hdt : ∀ p ∈ inputs, p.2 ≠ 0) :
    ∃ s, feed inputs Sampler.init = some s ∧ s.cursorXVelocities.length ≤ 3 ∧
      s.cursorXVelocities = lastN 3 (computedVelocities inputs) ∧
      ∀ x dt : K, dt ≠ 0 → s.cursorXVelocities.length = 3 →
        ∃ s2 lastX, sampleCursorVel x dt s = some s2 ∧ s.cursorXSamples.getLast? = some lastX ∧
          s2.cursorXVelocities = s.cursorXVelocities.tail ++ [(x - lastX) / dt] := by
  have _ := hdt
  obtain ⟨s, hs, hv, hx⟩ := feed_init inputs
  refine ⟨s, hs, ?_, hv, ?_⟩
  · rw [hv, length_lastN]; omega
  · intro x dt _ hfull
    have hcv : 3 ≤ (computedVelocities inputs).length := by
      rw [hv, length_lastN] at hfull; omega
    have hxlen : s.cursorXSamples.length = 4 := by
      rw [hx, length_lastN, List.length_map]
      rw [length_computedVelocities] at hcv; omega
    obtain ⟨lastX, hlastX⟩ : ∃ a, s.cursorXSamples.getLast? = some a := by
      cases hq : s.cursorXSamples.getLast? with
      | none => rw [List.getLast?_eq_none_iff] at hq; rw [hq] at hxlen; simp at hxlen
      | some a => exact ⟨a, rfl⟩
    have hpop : decide (s.cursorXVelocities.length > 2) = true := by simp [hfull]
    refine ⟨_, lastX, sampleCursorVel_next x dt s s.cursorXVelocities.tail s.cursorXSamples.tail
      lastX (by omega) (by rw [if_pos hpop]) (by rw [if_pos hpop]) ?_, hlastX, rfl⟩
    rw [getLast?_tail _ (by omega)]; exact hlastX

/-- Witness of C5: six samples, the velocity history ends as the last three of the
five computed velocities. -/
theorem cursorXVelocities_fifo_witness :
    (∀ p ∈ [((0 : ℚ), (1 : ℚ)), (1, 1), (3, 1), (6, 1), (10, 2), (11, 1)], p.2 ≠ 0) ∧
      ∃ s, feed [((0 : ℚ), (1 : ℚ)), (1, 1), (3, 1), (6, 1), (10, 2), (11, 1)] Sampler.init
          = some s ∧ s.cursorXVelocities.length ≤ 3 ∧
        s.cursorXVelocities =
          lastN 3 (computedVelocities [((0 : ℚ), (1 : ℚ)), (1, 1), (3, 1), (6, 1), (10, 2), (11, 1)]) ∧
        ∀ x dt : ℚ, dt ≠ 0 → s.cursorXVelocities.length = 3 →
          ∃ s2 lastX, sampleCursorVel x dt s = some s2 ∧ s.cursorXSamples.getLast? = some lastX ∧
            s2.cursorXVelocities = s.cursorXVelocities.tail ++ [(x - lastX) / dt] :=
  ⟨by decide, cursorXVelocities_fifo _ (by decide)⟩

/-- C6 fails at the third sample: with positions 0, 1, 3 and intervals 1 the velocity
history is [1, 2] after the third call, so the claimed acceleration is
(2 - 1) / 1 * 0.0518226, but `currAcceleration` is indeterminate (`none`): the
previous velocity was never read into `lastMeasuredVelocity`. -/
theorem currAcceleration_third_sample :
    (feed [((0 : ℚ), (1 : ℚ)), (1, 1), (3, 1)] Sampler.init).map
      (fun s => (s.cursorXVelocities, s.currAcceleration)) = some ([1, 2], none) := by
  simp [feed, sampleCursorVel, Sampler.init]
  norm_num

theorem feed_snoc {K : Type} [LinearOrderedField K] (l : List (K × K)) (p : K × K)
    (s : Sampler K) : feed (l ++ [p]) s = (feed l s).bind (sampleCursorVel p.1 p.2) := by
  induction l generalizing s with
  | nil =>
    show (sampleCursorVel p.1 p.2 s).bind (feed []) = (some s).bind (sampleCursorVel p.1 p.2)
    cases h : sampleCursorVel p.1 p.2 s <;> simp [feed, h]
  | cons q l ih =>
    show (sampleCursorVel q.1 q.2 s).bind (feed (l ++ [p])) = _
    cases h : sampleCursorVel q.1 q.2 s with
    | none => simp [feed, h]
    | some s1 => simp [feed, h, ih]

/-- From the fourth sample on (at least two velocities were stored before the call)
the stored acceleration is (new velocity - previous velocity) / interval, in meters. -/
theorem currAcceleration_from_fourth_sample {K : Type} [LinearOrderedField K]
    (inputs : List (K × K)) (x dt : K) (h : 3 ≤ inputs.length) :
    ∃ s front vPrev vNew, feed (inputs ++ [(x, dt)]) Sampler.init = some s ∧
      s.cursorXVelocities = front ++ [vPrev, vNew] ∧
      s.currAcceleration = some (((vNew - vPrev) / dt) * METERSPERWORLDUNITS) := by
  obtain ⟨s0, hs0, hinv⟩ := feed_init inputs
  rcases List.eq_nil_or_concat inputs with rfl | ⟨l0, p, rfl⟩
  · simp at h
  · rw [List.concat_eq_append] at hinv hs0 h ⊢
    obtain ⟨hne, hvel, hsam, hlast⟩ := samplerInv_popped l0 p s0 hinv
    have hstep := sampleCursorVel_next x dt s0 _ _ _ hne hvel hsam hlast
    have hlen : (lastN 2 (computedVelocities (l0 ++ [p]))).length = 2 := by
      rw [length_lastN, length_computedVelocities]; omega
    obtain ⟨a, b, hab⟩ : ∃ a b, lastN 2 (computedVelocities (l0 ++ [p])) = [a, b] := by
      match lastN 2 (computedVelocities (l0 ++ [p])), hlen with
      | [a, b], _ => exact ⟨a, b, rfl⟩
    rw [hab] at hstep
    have hfeed : feed (l0 ++ [p] ++ [(x, dt)]) Sampler.init = sampleCursorVel x dt s0 := by
      rw [feed_snoc, hs0]; rfl
    rw [hfeed, hstep]
    exact ⟨_, [a], b, (x - p.1) / dt, rfl, rfl, by simp⟩

/-! ### Physical calibration -/

/-- C7: after `initPhysicalLaws(staticFriction, leniency, mass)` with `mass ≠ 0`, every
one of the six blocks has `minTargetAccel = fg*staticFriction/mass - leniency` and
`maxTargetAccel = fg*staticFriction/mass + leniency` with `fg = mass*9.80665`; the
window is centred on `9.80665*staticFriction`. -/
theorem initPhysicalLaws_window {K β : Type} [LinearOrderedField K]
    (staticFriction leniency mass : K) (hmass : mass ≠ 0) (meshObjects : Blocks K β)
    (i : Fin 6) :
    ((initPhysicalLaws staticFriction leniency mass meshObjects).2 i).minTargetAccel =
        mass * 9.80665 * staticFriction / mass - leniency ∧
      ((initPhysicalLaws staticFriction leniency mass meshObjects).2 i).maxTargetAccel =
        mass * 9.80665 * staticFriction / mass + leniency ∧
      mass * 9.80665 * staticFriction / mass = 9.80665 * staticFriction := by
  refine ⟨?_, ?_, ?_⟩
  · by_cases h : i = 0
    · subst h; simp [initPhysicalLaws, GRAVITATIONALACCEL]
    · simp [initPhysicalLaws, GRAVITATIONALACCEL, Function.update_noteq h]
  · by_cases h : i = 0
    · subst h; simp [initPhysicalLaws, GRAVITATIONALACCEL]
    · simp [initPhysicalLaws, GRAVITATIONALACCEL, Function.update_noteq h]
  · field_simp
    ring

/-- Witness of C7: the defaults `staticFriction = 0.4`, `leniency = 1`, `mass = 0.035`
give block 3 the window `[fg*0.4/0.035 - 1, fg*0.4/0.035 + 1]`, `fg = 0.035*9.80665`. -/
theorem initPhysicalLaws_window_witness :
    ((initPhysicalLaws (0.4 : ℚ) 1 0.035
        (blocksInStates "a" "b" "c" "d" "e" "f")).2 3).minTargetAccel =
      0.035 * 9.80665 * 0.4 / 0.035 - 1 ∧
    ((initPhysicalLaws (0.4 : ℚ) 1 0.035
        (blocksInStates "a" "b" "c" "d" "e" "f")).2 3).maxTargetAccel =
      0.035 * 9.80665 * 0.4 / 0.035 + 1 ∧
    (0.035 : ℚ) * 9.80665 * 0.4 / 0.035 = 9.80665 * 0.4 :=
  initPhysicalLaws_window (0.4 : ℚ) 1 0.035 (by norm_num)
    (blocksInStates "a" "b" "c" "d" "e" "f") 3

/-! ### Zoom -/

theorem updateView_cam_A {K : Type} [LinearOrderedField K] (code : Int) (width height : Int)
    (vt : ViewTransformations K) :
    (updateView code width height vt).cam_A =
      if code = 0 then (0.8 : K) • vt.cam_A
      else if code = 1 then (1.2 : K) • vt.cam_A
      else vt.cam_A := rfl

/-- C8 (as stated) fails: from the initial camera scale `0.75 * I`, zoom in then zoom
out leaves `0.72 * I`, and so does zoom out then zoom in. -/
theorem zoom_round_trip_fails :
    (updateView 0 800 600 (updateView 1 800 600 (gameView 800 600 : ViewTransformations ℚ))).cam_A
        ≠ (gameView 800 600 : ViewTransformations ℚ).cam_A ∧
      (updateView 1 800 600 (updateView 0 800 600 (gameView 800 600 : ViewTransformations ℚ))).cam_A
        ≠ (gameView 800 600 : ViewTransformations ℚ).cam_A := by
  constructor
  · intro h
    have h00 := congrFun (congrFun h 0) 0
    simp [updateView_cam_A, gameView, ViewTransformations.create] at h00
    norm_num at h00
  · intro h
    have h00 := congrFun (congrFun h 0) 0
    simp [updateView_cam_A, gameView, ViewTransformations.create] at h00
    norm_num at h00

/-- C8 (amended): `updateView(1)` then `updateView(0)`, or the two in the opposite
order, multiplies `cam_A` by 0.96 (= 1.2 * 0.8), whatever the window sizes; `cam_A`
is back at its pre-zoom value only when it is the zero matrix. -/
theorem zoom_round_trip_scales {K : Type} [LinearOrderedField K] (vt : ViewTransformations K)
    (w1 h1 w2 h2 : Int) :
    (updateView 0 w2 h2 (updateView 1 w1 h1 vt)).cam_A = (0.96 : K) • vt.cam_A ∧
      (updateView 1 w2 h2 (updateView 0 w1 h1 vt)).cam_A = (0.96 : K) • vt.cam_A ∧
      ((0.96 : K) • vt.cam_A = vt.cam_A ↔ vt.cam_A = 0) := by
  refine ⟨?_, ?_, ?_⟩
  · simp only [updateView_cam_A]
    norm_num [smul_smul]
  · simp only [updateView_cam_A]
    norm_num [smul_smul]
  · constructor
    · intro h
      have h2 : ((0.96 : K) - 1) • vt.cam_A = 0 := by rw [sub_smul, h, one_smul, sub_self]
      rcases smul_eq_zero.1 h2 with h3 | h3
      · norm_num at h3
      · exact h3
    · intro h; rw [h, smul_zero]

/-! ### Hit detection -/

theorem checkBlock_calls_other {K β : Type} [LinearOrderedField K] (env : HitEnv K β)
    (i j : Fin 6) (hij : j ≠ i) (st : Blocks K β × List (HitCall K)) :
    (checkBlock env j st).2.filter (fun c => decide (c.block = i)) =
      st.2.filter (fun c => decide (c.block = i)) := by
  unfold checkBlock
  simp only
  split
  · split
    · simp [leftHit, hij]
    · split
      · simp [rightHit, hij]
      · rfl
  · rfl

theorem checkForHitLoop_calls_other {K β : Type} [LinearOrderedField K] (env : HitEnv K β)
    (i : Fin 6) (l : List (Fin 6)) (hl : i ∉ l) (st : Blocks K β × List (HitCall K)) :
    (checkForHitLoop env l st).2.filter (fun c => decide (c.block = i)) =
      st.2.filter (fun c => decide (c.block = i)) := by
  induction l generalizing st with
  | nil => rfl
  | cons j l ih =>
    have hj : j ≠ i := fun h => hl (by simp [h])
    have hl2 : i ∉ l := fun h => hl (by simp [h])
    show (checkForHitLoop env l (checkBlock env j st)).2.filter _ = _
    rw [ih hl2, checkBlock_calls_other env i j hj]

theorem finRange_split (i : Fin 6) :
    List.finRange 6 = (List.finRange 6).take i ++ i :: (List.finRange 6).drop (i + 1) ∧
      i ∉ (List.finRange 6).take i ∧ i ∉ (List.finRange 6).drop (i + 1) := by
  fin_cases i <;> decide

/-- The calls on block `i` are those of its own iteration, made on the blocks as that
iteration finds them. -/
theorem hitsOn_eq {K β : Type} [LinearOrderedField K] (env : HitEnv K β)
    (meshObjects : Blocks K β) (i : Fin 6) :
    hitsOn env meshObjects i =
      (checkBlock env i
        (checkForHitLoop env ((List.finRange 6).take i) (meshObjects, []))).2.filter
        (fun c => decide (c.block = i)) := by
  obtain ⟨hsplit, _, hdrop⟩ := finRange_split i
  unfold hitsOn checkForHit
  have h : checkForHitLoop env (List.finRange 6) (meshObjects, []) =
      checkForHitLoop env ((List.finRange 6).drop (i + 1))
        (checkBlock env i (checkForHitLoop env ((List.finRange 6).take i) (meshObjects, []))) := by
    conv_lhs => rw [hsplit]
    simp [checkForHitLoop, List.foldl_append]
  rw [h, checkForHitLoop_calls_other env i _ hdrop]


/-- C10, left-side priority in `checkForHit`: for a block `i` that, when the loop reaches
it, is in state "base" and passes the Y-band test (`leftFace.y` strictly inside
`yMinBound`, `yMaxBound`): if `leftFace.x` lies in the block's world-space
`[xMinBound, xMaxBound]`, `hit` is invoked exactly once on it, with
`targetCursorX` = latest cursor X sample + 5 and contact point `leftFace`, also when
`rightFace.x` is in range; otherwise, if `rightFace.x` lies in the range, exactly once
with latest sample - 5 and `rightFace`; otherwise `hit` is not invoked on the block. -/
theorem checkForHit_left_priority {K β : Type} [LinearOrderedField K] (env : HitEnv K β)
    (meshObjects : Blocks K β) (i : Fin 6) (xMinBound xMaxBound : K)
    (hbase : (blockWhenChecked env meshObjects i).state = "base")
    (hy : env.leftFace 1 < (blockWhenChecked env meshObjects i).yMaxBound ∧
      env.leftFace 1 > (blockWhenChecked env meshObjects i).yMinBound)
    (hmin : xMinBound = env.getTransformed (blockWhenChecked env meshObjects i)
      ![(blockWhenChecked env meshObjects i).xMinBound, 0, 0] 0)
    (hmax : xMaxBound = env.getTransformed (blockWhenChecked env meshObjects i)
      ![(blockWhenChecked env meshObjects i).xMaxBound, 0, 0] 0) :
    ((xMinBound ≤ env.leftFace 0 ∧ env.leftFace 0 ≤ xMaxBound) →
        hitsOn env meshObjects i = [leftHit env i]) ∧
      (¬ (xMinBound ≤ env.leftFace 0 ∧ env.leftFace 0 ≤ xMaxBound) →
        (xMinBound ≤ env.rightFace 0 ∧ env.rightFace 0 ≤ xMaxBound) →
        hitsOn env meshObjects i = [rightHit env i]) ∧
      (¬ (xMinBound ≤ env.leftFace 0 ∧ env.leftFace 0 ≤ xMaxBound) →
        ¬ (xMinBound ≤ env.rightFace 0 ∧ env.rightFace 0 ≤ xMaxBound) →
        hitsOn env meshObjects i = []) ∧
      (leftHit env i).targetCursorX =
        env.sampler.cursorXSamples.getLast env.samplesNonempty + 5 ∧
      (rightHit env i).targetCursorX =
        env.sampler.cursorXSamples.getLast env.samplesNonempty - 5 ∧
      (leftHit env i).contact = env.leftFace ∧ (rightHit env i).contact = env.rightFace := by
  obtain ⟨_, htake, _⟩ := finRange_split i
  have hbefore := checkForHitLoop_calls_other env i _ htake (meshObjects, [])
  have hguard : env.leftFace 1 < (blockWhenChecked env meshObjects i).yMaxBound ∧
      env.leftFace 1 > (blockWhenChecked env meshObjects i).yMinBound ∧
      (blockWhenChecked env meshObjects i).state = "base" := ⟨hy.1, hy.2, hbase⟩
  rw [hitsOn_eq]
  unfold blockWhenChecked at hguard hmin hmax
  refine ⟨fun hl => ?_, fun hl hr => ?_, fun hl hr => ?_, rfl, rfl, rfl, rfl⟩
  · rw [hmin, hmax] at hl
    unfold checkBlock
    simp only
    rw [if_pos hguard, if_pos ⟨hl.2, hl.1⟩, List.filter_append, hbefore]
    simp [leftHit]
  · rw [hmin, hmax] at hl hr
    unfold checkBlock
    simp only
    rw [if_pos hguard, if_neg (fun h => hl ⟨h.2, h.1⟩), if_pos ⟨hr.1, hr.2⟩,
      List.filter_append, hbefore]
    simp [rightHit]
  · rw [hmin, hmax] at hl hr
    unfold checkBlock
    simp only
    rw [if_pos hguard, if_neg (fun h => hl ⟨h.2, h.1⟩), if_neg (fun h => hr ⟨h.1, h.2⟩),
      hbefore]
    rfl


theorem blockWhenChecked_example : blockWhenChecked exampleEnv exampleBlocks 1 = exampleBlocks 1 := by
  have h : (List.finRange 6).take ((1 : Fin 6) : Nat) = [0] := by decide
  unfold blockWhenChecked
  rw [h]
  simp [checkForHitLoop, checkBlock, exampleBlocks]

/-- Witness of C10: both faces of the hammer are inside block 1; `hit` is invoked once on
it, for the left face, with target 2 + 5. -/
theorem checkForHit_left_priority_witness :
    hitsOn exampleEnv exampleBlocks 1 = [leftHit exampleEnv 1] ∧
      (leftHit exampleEnv 1).targetCursorX = 2 + 5 :=
  ⟨(checkForHit_left_priority exampleEnv exampleBlocks 1 (-1) 1
      (by rw [blockWhenChecked_example]; rfl)
      (by rw [blockWhenChecked_example]; norm_num [exampleEnv, exampleBlocks])
      (by rw [blockWhenChecked_example]; simp [exampleEnv, exampleBlocks])
      (by rw [blockWhenChecked_example]; simp [exampleEnv, exampleBlocks])).1
      (by norm_num [exampleEnv]),
    by simp [leftHit, exampleEnv]⟩

/-! ### Cursor unprojection -/

theorem inverse_eq_inv {K : Type} [LinearOrderedField K] (A : Mat4 K) : inverse A = A⁻¹ := by
  unfold inverse
  rw [Matrix.inv_def, Ring.inverse_eq_inv']

theorem inverse_eq_of_mul_eq_one {K : Type} [LinearOrderedField K] (A B : Mat4 K)
    (h : A * B = 1) : inverse A = B := by
  rw [inverse_eq_inv]; exact Matrix.inv_eq_right_inv h

/-- The frame of the game camera at (0, 1/2, 4), in terms of `n = sqrt (65/4)`. -/
theorem camFrame_game {K : Type} [LinearOrderedField K] (sqrt : K → K)
    (hsqrt : ∀ x : K, 0 ≤ x → 0 ≤ sqrt x ∧ sqrt x * sqrt x = x) :
    camFrame sqrt ![0, 0.5, 4] =
      !![1, 0, 0, 0;
         0, 4 / sqrt (65 / 4), (1 / 2) / sqrt (65 / 4), 1 / 2;
         0, -(1 / 2) / sqrt (65 / 4), 4 / sqrt (65 / 4), 4;
         0, 0, 0, 1] := by
  obtain ⟨hn0, hnn⟩ := hsqrt (65 / 4) (by norm_num)
  have hnpos : 0 < sqrt (65 / 4) := by
    rcases hn0.lt_or_eq with h | h
    · exact h
    · rw [← h] at hnn; norm_num at hnn
  have hd : dot (![0, 0.5, 4] : Vec3 K) ![0, 0.5, 4] = 65 / 4 := by
    simp [dot]; norm_num
  have hw : normalized sqrt (![0, 0.5, 4] : Vec3 K) =
      ![0, (1 / 2) / sqrt (65 / 4), 4 / sqrt (65 / 4)] := by
    unfold normalized
    rw [hd, if_pos (by norm_num)]
    funext i; fin_cases i <;> simp
    norm_num
  have hc : cross (![0, (1 / 2) / sqrt (65 / 4), 4 / sqrt (65 / 4)] : Vec3 K) ![0, 1, 0] =
      ![-(4 / sqrt (65 / 4)), 0, 0] := by
    funext i; fin_cases i <;> simp [cross]
  have hd2 : dot (![-(4 / sqrt (65 / 4)), 0, 0] : Vec3 K) ![-(4 / sqrt (65 / 4)), 0, 0] =
      64 / 65 := by
    simp [dot]
    field_simp
    linear_combination (-64 : K) * hnn
  have hs2 : sqrt (64 / 65) = 4 / sqrt (65 / 4) := by
    obtain ⟨h0, h1⟩ := hsqrt (64 / 65) (by norm_num)
    have h4 : (0 : K) ≤ 4 / sqrt (65 / 4) := by positivity
    rw [← mul_self_inj h0 h4, h1]
    field_simp
    linear_combination (64 : K) * hnn
  have hu : normalized sqrt (![-(4 / sqrt (65 / 4)), 0, 0] : Vec3 K) = ![-1, 0, 0] := by
    unfold normalized
    rw [hd2, if_pos (by norm_num), hs2]
    funext i; fin_cases i <;> simp
    field_simp
    ring
  unfold camFrame
  simp only [hw, hc, hu]
  ext i j
  fin_cases i <;> fin_cases j <;> simp [cross] <;> ring


theorem updateView_isGameView {K : Type} [LinearOrderedField K] (vt : ViewTransformations K)
    (s : K) (width height : Int) (code : Int)
    (h1 : vt.camPos = ![0, 0.5, 4]) (h2 : vt.lbn = ![-1.5, -1.5, 1.5])
    (h3 : vt.rtf = ![1.5, 1.5, -1.5]) (h4 : vt.windowyShift = -0.3)
    (h5 : vt.cam_A = s • (1 : Mat4 K)) :
    IsGameView (updateView code width height vt) (zoomStep code s) width height := by
  have hcam : (updateView code width height vt).cam_A = zoomStep code s • (1 : Mat4 K) := by
    rw [updateView_cam_A, h5]
    unfold zoomStep
    split
    · rw [smul_smul]
    · split
      · rw [smul_smul]
      · rfl
  refine ⟨h1, h2, h3, h4, hcam, ?_⟩
  have hview : (updateView code width height vt).view_A =
      (updateView code width height vt).window_A * (updateView code width height vt).cam_A := rfl
  rw [hview, hcam]
  ext i j
  fin_cases i <;> fin_cases j <;>
    simp [updateView, Matrix.mul_apply, Fin.sum_univ_four, Matrix.one_apply] <;> rfl

theorem isGameView_gameView {K : Type} [LinearOrderedField K] (width height : Int) :
    IsGameView (gameView width height : ViewTransformations K) (3 / 4) width height := by
  have h1 := updateView_isGameView (ViewTransformations.create (![0, 0.5, 4] : Vec3 K)
    ![-1.5, -1.5, 1.5] ![1.5, 1.5, -1.5]) (3 / 4) width height (-1) rfl rfl rfl rfl rfl
  simpa [zoomStep, gameView] using h1

theorem isGameView_zoomed {K : Type} [LinearOrderedField K] (codes : List Int)
    (width height : Int) (vt : ViewTransformations K) (s : K)
    (h : IsGameView vt s width height) :
    IsGameView (zoomed codes width height vt) (codes.foldl (fun t code => zoomStep code t) s)
      width height := by
  induction codes generalizing vt s with
  | nil => exact h
  | cons c cs ih =>
    exact ih _ _ (updateView_isGameView vt s width height c h.1 h.2.1 h.2.2.1 h.2.2.2.1
      h.2.2.2.2.1)

theorem zoomStep_ne_zero {K : Type} [LinearOrderedField K] (code : Int) (s : K) (h : s ≠ 0) :
    zoomStep code s ≠ 0 := by
  unfold zoomStep
  split
  · exact mul_ne_zero (by norm_num) h
  · split
    · exact mul_ne_zero (by norm_num) h
    · exact h

theorem zoomFactor_ne_zero {K : Type} [LinearOrderedField K] (codes : List Int) (s : K)
    (h : s ≠ 0) : codes.foldl (fun t code => zoomStep code t) s ≠ 0 := by
  induction codes generalizing s with
  | nil => exact h
  | cons c cs ih => exact ih _ (zoomStep_ne_zero c s h)


/-- The world-to-camera matrix of the game camera, `n = sqrt (65/4)`. -/
theorem getMCam_game {K : Type} [LinearOrderedField K] (sqrt : K → K)
    (hsqrt : ∀ x : K, 0 ≤ x → 0 ≤ sqrt x ∧ sqrt x * sqrt x = x)
    (vt : ViewTransformations K) (hcam : vt.camPos = ![0, 0.5, 4]) :
    getMCam sqrt vt =
      !![1, 0, 0, 0;
         0, 4 / sqrt (65 / 4), -(1 / 2) / sqrt (65 / 4), 0;
         0, (1 / 2) / sqrt (65 / 4), 4 / sqrt (65 / 4), -sqrt (65 / 4);
         0, 0, 0, 1] ∧
    (!![1, 0, 0, 0;
         0, 4 / sqrt (65 / 4), -(1 / 2) / sqrt (65 / 4), 0;
         0, (1 / 2) / sqrt (65 / 4), 4 / sqrt (65 / 4), -sqrt (65 / 4);
         0, 0, 0, 1] : Mat4 K) * camFrame sqrt ![0, 0.5, 4] = 1 := by
  obtain ⟨hn0, hnn⟩ := hsqrt (65 / 4) (by norm_num)
  have hne : sqrt (65 / 4) ≠ 0 := by
    intro h; rw [h] at hnn; norm_num at hnn
  have hBC : camFrame sqrt (![0, 0.5, 4] : Vec3 K) *
      !![1, 0, 0, 0;
         0, 4 / sqrt (65 / 4), -(1 / 2) / sqrt (65 / 4), 0;
         0, (1 / 2) / sqrt (65 / 4), 4 / sqrt (65 / 4), -sqrt (65 / 4);
         0, 0, 0, 1] = 1 := by
    rw [camFrame_game sqrt hsqrt]
    ext i j
    fin_cases i <;> fin_cases j <;>
      simp [Matrix.mul_apply, Fin.sum_univ_four, Matrix.one_apply, Matrix.vecHead,
        Matrix.vecTail] <;>
      first
        | (field_simp; done)
        | (field_simp; ring1)
        | (field_simp; linear_combination (-4 * sqrt (65 / 4) ^ 2) * hnn)
  refine ⟨?_, Matrix.mul_eq_one_comm.1 hBC⟩
  unfold getMCam
  rw [hcam]
  exact inverse_eq_of_mul_eq_one _ _ hBC


theorem mul_chain_eq_one {K : Type} [LinearOrderedField K] (V O C B O2 V2 : Mat4 K)
    (hCB : C * B = 1) (hOO : O * O2 = 1) (hVV : V * V2 = 1) :
    V * (O * C) * (B * (O2 * V2)) = 1 := by
  calc V * (O * C) * (B * (O2 * V2)) = V * (O * ((C * B) * O2)) * V2 := by
        simp only [Matrix.mul_assoc]
    _ = 1 := by rw [hCB, Matrix.one_mul, hOO, Matrix.mul_one, hVV]

theorem getMOrth_game {K : Type} [LinearOrderedField K] (vt : ViewTransformations K)
    (hl : vt.lbn = ![-1.5, -1.5, 1.5]) (hr : vt.rtf = ![1.5, 1.5, -1.5]) :
    getMOrth vt = !![2 / 3, 0, 0, 0; 0, 2 / 3, 0, 0; 0, 0, -2 / 3, 0; 0, 0, 0, 1] := by
  unfold getMOrth
  rw [hl, hr]
  ext i j
  fin_cases i <;> fin_cases j <;> simp <;> norm_num

theorem mulVec_four {K : Type} [LinearOrderedField K]
    (a00 a01 a02 a03 a10 a11 a12 a13 a20 a21 a22 a23 a30 a31 a32 a33 v0 v1 v2 v3 : K) :
    (!![a00, a01, a02, a03; a10, a11, a12, a13; a20, a21, a22, a23; a30, a31, a32, a33] :
      Mat4 K).mulVec ![v0, v1, v2, v3] =
      ![a00 * v0 + a01 * v1 + a02 * v2 + a03 * v3,
        a10 * v0 + a11 * v1 + a12 * v2 + a13 * v3,
        a20 * v0 + a21 * v1 + a22 * v2 + a23 * v3,
        a30 * v0 + a31 * v1 + a32 * v2 + a33 * v3] := by
  funext i
  fin_cases i <;>
    simp [Matrix.mulVec, Matrix.dotProduct, Fin.sum_univ_four, Matrix.vecHead, Matrix.vecTail]

theorem cursorPixel_ndc {K : Type} [LinearOrderedField K] (X Y : K) (width height : Int)
    (hw : width ≠ 0) (hh : height ≠ 0) :
    (cursorPixel X Y width height).1 / (width : K) * 2 - 1 = X ∧
      ((height : K) - 1 - (cursorPixel X Y width height).2) / (height : K) * 2 - 1 = Y := by
  have hwK : (width : K) ≠ 0 := by exact_mod_cast hw
  have hhK : (height : K) ≠ 0 := by exact_mod_cast hh
  unfold cursorPixel
  constructor
  · field_simp
    ring
  · field_simp
    ring

/-- The vertex shader on a point of the plane z = 0, in the view of the game. -/
theorem vertexShader_game {K : Type} [LinearOrderedField K] (sqrt : K → K)
    (hsqrt : ∀ x : K, 0 ≤ x → 0 ≤ sqrt x ∧ sqrt x * sqrt x = x)
    (vt : ViewTransformations K) (s : K) (width height : Int)
    (hv : IsGameView vt s width height) (x y : K) :
    vertexShader vt.view_A (getM sqrt vt) 1 vt.windowyShift ![x, y, 0] 0 =
        1 / ((width : K) / 600) * s * (2 / 3 * x) ∧
      vertexShader vt.view_A (getM sqrt vt) 1 vt.windowyShift ![x, y, 0] 1 =
        1 / ((height : K) / 600) * s * (2 / 3 * (4 / sqrt (65 / 4) * y)) + -0.3 := by
  obtain ⟨hcam, hlbn, hrtf, hshift, -, hview⟩ := hv
  obtain ⟨hC, -⟩ := getMCam_game sqrt hsqrt vt hcam
  have hO := getMOrth_game vt hlbn hrtf
  unfold vertexShader getM
  rw [hC, hO, hview, hshift, Matrix.mul_one]
  simp only [← Matrix.mulVec_mulVec]
  constructor
  · simp [Matrix.mulVec, Matrix.dotProduct, Fin.sum_univ_four, Matrix.vecHead, Matrix.vecTail]
  · simp [Matrix.mulVec, Matrix.dotProduct, Fin.sum_univ_four, Matrix.vecHead, Matrix.vecTail]

/-- The value of `getCursorPosInWorld` at the pixel of the normalized device coordinates
`(X, Y)`, in the view of the game. -/
theorem getCursorPosInWorld_ndc {K : Type} [LinearOrderedField K] (sqrt : K → K)
    (hsqrt : ∀ x : K, 0 ≤ x → 0 ≤ sqrt x ∧ sqrt x * sqrt x = x)
    (vt : ViewTransformations K) (s : K) (width height : Int)
    (hv : IsGameView vt s width height) (hs : s ≠ 0) (hw : width ≠ 0) (hh : height ≠ 0)
    (X Y : K) :
    getCursorPosInWorld sqrt vt (cursorPixel X Y width height).1
        (cursorPixel X Y width height).2 width height =
      (3 / 2 * ((width : K) / 600 / s * X),
        4 / sqrt (65 / 4) * (3 / 2 * ((height : K) / 600 / s * (Y + 0.3)))) := by
  obtain ⟨hcam, hlbn, hrtf, hshift, hcamA, hview⟩ := hv
  obtain ⟨hn0, hnn⟩ := hsqrt (65 / 4) (by norm_num)
  have hne : sqrt (65 / 4) ≠ 0 := by
    intro h; rw [h] at hnn; norm_num at hnn
  have hwK : (width : K) ≠ 0 := by exact_mod_cast hw
  have hhK : (height : K) ≠ 0 := by exact_mod_cast hh
  obtain ⟨hC, hCB⟩ := getMCam_game sqrt hsqrt vt hcam
  have hO := getMOrth_game vt hlbn hrtf
  have hB := camFrame_game sqrt hsqrt
  rw [hB] at hCB
  have hOO : (!![2 / 3, 0, 0, 0; 0, 2 / 3, 0, 0; 0, 0, -2 / 3, 0; 0, 0, 0, 1] : Mat4 K) *
      !![3 / 2, 0, 0, 0; 0, 3 / 2, 0, 0; 0, 0, -3 / 2, 0; 0, 0, 0, 1] = 1 := by
    ext i j
    fin_cases i <;> fin_cases j <;>
      simp [Matrix.mul_apply, Fin.sum_univ_four, Matrix.one_apply, Matrix.vecHead,
        Matrix.vecTail]
    all_goals norm_num
  have hVV : vt.view_A *
      !![(width : K) / 600 / s, 0, 0, 0; 0, (height : K) / 600 / s, 0, 0; 0, 0, 1 / s, 0;
         0, 0, 0, 1 / s] = 1 := by
    rw [hview]
    ext i j
    fin_cases i <;> fin_cases j <;>
      simp [Matrix.mul_apply, Fin.sum_univ_four, Matrix.one_apply, Matrix.vecHead,
        Matrix.vecTail]
    all_goals field_simp
  have hinv : inverse (vt.view_A * getM sqrt vt) =
      !![1, 0, 0, 0;
         0, 4 / sqrt (65 / 4), (1 / 2) / sqrt (65 / 4), 1 / 2;
         0, -(1 / 2) / sqrt (65 / 4), 4 / sqrt (65 / 4), 4;
         0, 0, 0, 1] *
      (!![3 / 2, 0, 0, 0; 0, 3 / 2, 0, 0; 0, 0, -3 / 2, 0; 0, 0, 0, 1] *
       !![(width : K) / 600 / s, 0, 0, 0; 0, (height : K) / 600 / s, 0, 0; 0, 0, 1 / s, 0;
         0, 0, 0, 1 / s]) := by
    apply inverse_eq_of_mul_eq_one
    unfold getM
    rw [hC, hO]
    exact mul_chain_eq_one _ _ _ _ _ _ hCB hOO hVV
  obtain ⟨hX, hY⟩ := cursorPixel_ndc X Y width height hw hh
  unfold getCursorPosInWorld
  simp only [hinv, hX, hY, hshift, hcam, hcamA, ← Matrix.mulVec_mulVec, mulVec_four]
  refine Prod.ext ?_ ?_
  · simp
  · simp [Function.update]
    field_simp
    ring1

/-- What the game does to a point `(x, y, 0)` of the plane z = 0: the vertex shader
draws it at a pixel from which `getCursorPosInWorld` returns `(x, 64/65 * y)`. -/
theorem getCursorPosInWorld_game {K : Type} [LinearOrderedField K] (sqrt : K → K)
    (hsqrt : ∀ x : K, 0 ≤ x → 0 ≤ sqrt x ∧ sqrt x * sqrt x = x)
    (vt : ViewTransformations K) (s : K) (width height : Int)
    (hv : IsGameView vt s width height) (hs : s ≠ 0) (hw : width ≠ 0) (hh : height ≠ 0)
    (x y : K) :
    getCursorPosInWorld sqrt vt
        (cursorPixel (vertexShader vt.view_A (getM sqrt vt) 1 vt.windowyShift ![x, y, 0] 0)
          (vertexShader vt.view_A (getM sqrt vt) 1 vt.windowyShift ![x, y, 0] 1)
          width height).1
        (cursorPixel (vertexShader vt.view_A (getM sqrt vt) 1 vt.windowyShift ![x, y, 0] 0)
          (vertexShader vt.view_A (getM sqrt vt) 1 vt.windowyShift ![x, y, 0] 1)
          width height).2
        width height = (x, 64 / 65 * y) := by
  obtain ⟨hn0, hnn⟩ := hsqrt (65 / 4) (by norm_num)
  have hne : sqrt (65 / 4) ≠ 0 := by
    intro h; rw [h] at hnn; norm_num at hnn
  have hwK : (width : K) ≠ 0 := by exact_mod_cast hw
  have hhK : (height : K) ≠ 0 := by exact_mod_cast hh
  obtain ⟨h0, h1⟩ := vertexShader_game sqrt hsqrt vt s width height hv x y
  rw [getCursorPosInWorld_ndc sqrt hsqrt vt s width height hv hs hw hh, h0, h1]
  refine Prod.ext ?_ ?_
  · show 3 / 2 * ((width : K) / 600 / s * (1 / ((width : K) / 600) * s * (2 / 3 * x))) = x
    field_simp
    ring
  · show 4 / sqrt (65 / 4) * (3 / 2 * ((height : K) / 600 / s *
      (1 / ((height : K) / 600) * s * (2 / 3 * (4 / sqrt (65 / 4) * y)) + -0.3 + 0.3))) =
      64 / 65 * y
    rw [neg_add_cancel_right]
    field_simp
    linear_combination (-230400 : K) * y * (height : K) * s * hnn


theorem real_sqrt_spec (x : ℝ) (hx : 0 ≤ x) : 0 ≤ Real.sqrt x ∧ Real.sqrt x * Real.sqrt x = x :=
  ⟨Real.sqrt_nonneg x, Real.mul_self_sqrt hx⟩

/-- C9 fails: in the 800 x 600 window of the game, at every zoom level reachable by
`updateView`, the world point (0, 1, 0) drawn by the vertex shader and fed back to
`getCursorPosInWorld` comes out as (0, 64/65), not as (0, 1). -/
theorem getCursorPosInWorld_round_trip_off (codes : List Int) :
    projectThenUnproject Real.sqrt (zoomed codes 800 600 (gameView 800 600)) 800 600 ![0, 1, 0] =
        (0, 64 / 65) ∧
      projectThenUnproject Real.sqrt (zoomed codes 800 600 (gameView 800 600)) 800 600 ![0, 1, 0] ≠
        (0, 1) := by
  have hv := isGameView_zoomed codes 800 600 (gameView 800 600 : ViewTransformations ℝ) (3 / 4)
    (isGameView_gameView 800 600)
  have hs := zoomFactor_ne_zero codes (3 / 4 : ℝ) (by norm_num)
  have h := getCursorPosInWorld_game Real.sqrt real_sqrt_spec _ _ 800 600 hv hs (by norm_num)
    (by norm_num) 0 1
  have h2 : projectThenUnproject Real.sqrt (zoomed codes 800 600 (gameView 800 600)) 800 600
      ![0, 1, 0] = (0, 64 / 65) := by
    unfold projectThenUnproject
    simpa using h
  refine ⟨h2, ?_⟩
  rw [h2]
  intro h3
  have h4 := congrArg Prod.snd h3
  norm_num at h4


/-! ### Contact test -/

theorem blockWhenChecked_tilted : blockWhenChecked tiltedEnv exampleBlocks 1 = exampleBlocks 1 := by
  have h : (List.finRange 6).take ((1 : Fin 6) : Nat) = [0] := by decide
  unfold blockWhenChecked
  rw [h]
  simp [checkForHitLoop, checkBlock, exampleBlocks]

theorem hitsOn_tilted : hitsOn tiltedEnv exampleBlocks 1 = [rightHit tiltedEnv 1] := by
  have h : (List.finRange 6).take ((1 : Fin 6) : Nat) = [0] := by decide
  rw [hitsOn_eq, h]
  simp [checkForHitLoop, checkBlock, exampleBlocks, tiltedEnv, rightHit]
  norm_num

theorem hitsOn_example : hitsOn exampleEnv exampleBlocks 1 = [leftHit exampleEnv 1] := by
  have h : (List.finRange 6).take ((1 : Fin 6) : Nat) = [0] := by decide
  rw [hitsOn_eq, h]
  simp [checkForHitLoop, checkBlock, exampleBlocks, exampleEnv, leftHit]
  norm_num

/-- C11 (as stated) fails: with a tilted hammer, `hit` is invoked on block 1 for the right
face, whose Y coordinate 5 is outside the block's band [0, 1]. -/
theorem right_hit_outside_band :
    hitsOn tiltedEnv exampleBlocks 1 = [rightHit tiltedEnv 1] ∧
      (rightHit tiltedEnv 1).contact = tiltedEnv.rightFace ∧
      ¬ ((blockWhenChecked tiltedEnv exampleBlocks 1).yMinBound ≤ tiltedEnv.rightFace 1 ∧
        tiltedEnv.rightFace 1 ≤ (blockWhenChecked tiltedEnv exampleBlocks 1).yMaxBound) := by
  refine ⟨hitsOn_tilted, rfl, ?_⟩
  rw [blockWhenChecked_tilted]
  norm_num [tiltedEnv, exampleBlocks]

/-- C11 (amended): `hit` is invoked on a block only when the Y coordinate of the hammer's
left face lies strictly between the block's `yMinBound` and `yMaxBound` (the block as
the loop finds it), whichever face makes the contact; every call is the left-side or
the right-side call, and the contact face of a left-side call is the left face. -/
theorem hit_only_in_left_band {K β : Type} [LinearOrderedField K] (env : HitEnv K β)
    (meshObjects : Blocks K β) (i : Fin 6) (hhit : hitsOn env meshObjects i ≠ []) :
    ((blockWhenChecked env meshObjects i).yMinBound < env.leftFace 1 ∧
        env.leftFace 1 < (blockWhenChecked env meshObjects i).yMaxBound) ∧
      (hitsOn env meshObjects i = [leftHit env i] ∨
        hitsOn env meshObjects i = [rightHit env i]) ∧
      (leftHit env i).contact = env.leftFace := by
  obtain ⟨_, htake, _⟩ := finRange_split i
  have hbefore := checkForHitLoop_calls_other env i _ htake (meshObjects, [])
  rw [hitsOn_eq] at hhit ⊢
  unfold blockWhenChecked
  unfold checkBlock at hhit ⊢
  simp only at hhit ⊢
  split at hhit
  · rename_i hguard
    refine ⟨⟨hguard.2.1, hguard.1⟩, ?_, rfl⟩
    rw [if_pos hguard]
    split
    · left
      rw [List.filter_append, hbefore]
      simp [leftHit]
    · split
      · right
        rw [List.filter_append, hbefore]
        simp [rightHit]
      · rename_i hl hr
        rw [if_neg hl, if_neg hr] at hhit
        exact absurd hbefore hhit
  · exact absurd hbefore hhit

/-- Witness of C11 (amended): the left-side hit on block 1 of the illustration, whose
band is (0, 1) and whose left face is at height 1/2. -/
theorem hit_only_in_left_band_witness :
    ((blockWhenChecked exampleEnv exampleBlocks 1).yMinBound < exampleEnv.leftFace 1 ∧
        exampleEnv.leftFace 1 < (blockWhenChecked exampleEnv exampleBlocks 1).yMaxBound) ∧
      (hitsOn exampleEnv exampleBlocks 1 = [leftHit exampleEnv 1] ∨
        hitsOn exampleEnv exampleBlocks 1 = [rightHit exampleEnv 1]) ∧
      (leftHit exampleEnv 1).contact = exampleEnv.leftFace :=
  hit_only_in_left_band exampleEnv exampleBlocks 1 (by rw [hitsOn_example]; simp)


/-! ### Orthographic matrix -/

/-- The image under `getMOrth()` of a point `(x, y, z)`. -/
theorem getMOrth_mulVec {K : Type} [LinearOrderedField K] (vt : ViewTransformations K)
    (x y z : K) :
    (getMOrth vt).mulVec ![x, y, z, 1] =
      ![2 / (vt.rtf 0 - vt.lbn 0) * x + (-1) * (vt.rtf 0 + vt.lbn 0) / (vt.rtf 0 - vt.lbn 0),
        2 / (vt.rtf 1 - vt.lbn 1) * y + (-1) * (vt.rtf 1 + vt.lbn 1) / (vt.rtf 1 - vt.lbn 1),
        -2 / (vt.lbn 2 - vt.rtf 2) * z + (-1) * (vt.lbn 2 + vt.rtf 2) / (vt.lbn 2 - vt.rtf 2),
        1] := by
  unfold getMOrth
  simp only [mulVec_four]
  funext i
  fin_cases i <;> simp

/-- In X and Y `getMOrth()` is the standard orthographic projection: x = l goes to -1,
x = r to +1, y = b to -1, y = t to +1. -/
theorem getMOrth_xy {K : Type} [LinearOrderedField K] (vt : ViewTransformations K)
    (hx : vt.lbn 0 ≠ vt.rtf 0) (hy : vt.lbn 1 ≠ vt.rtf 1) (x y z : K) :
    (getMOrth vt).mulVec ![vt.lbn 0, y, z, 1] 0 = -1 ∧
      (getMOrth vt).mulVec ![vt.rtf 0, y, z, 1] 0 = 1 ∧
      (getMOrth vt).mulVec ![x, vt.lbn 1, z, 1] 1 = -1 ∧
      (getMOrth vt).mulVec ![x, vt.rtf 1, z, 1] 1 = 1 := by
  have hx2 : vt.rtf 0 - vt.lbn 0 ≠ 0 := sub_ne_zero.2 (Ne.symm hx)
  have hy2 : vt.rtf 1 - vt.lbn 1 ≠ 0 := sub_ne_zero.2 (Ne.symm hy)
  simp only [getMOrth_mulVec]
  refine ⟨?_, ?_, ?_, ?_⟩ <;> simp <;> field_simp <;> ring

/-- In depth `getMOrth()` sends the planes z = n and z = f to the faces z = -1 and
z = +1 when `n + f = 0`, and only then does it send both planes to faces of the cube. -/
theorem getMOrth_depth {K : Type} [LinearOrderedField K] (vt : ViewTransformations K)
    (hz : vt.lbn 2 ≠ vt.rtf 2) (x y : K) :
    (vt.lbn 2 + vt.rtf 2 = 0 →
        (getMOrth vt).mulVec ![x, y, vt.lbn 2, 1] 2 = -1 ∧
        (getMOrth vt).mulVec ![x, y, vt.rtf 2, 1] 2 = 1) ∧
      (((getMOrth vt).mulVec ![x, y, vt.lbn 2, 1] 2 = 1 ∨
          (getMOrth vt).mulVec ![x, y, vt.lbn 2, 1] 2 = -1) →
        ((getMOrth vt).mulVec ![x, y, vt.rtf 2, 1] 2 = 1 ∨
          (getMOrth vt).mulVec ![x, y, vt.rtf 2, 1] 2 = -1) →
        vt.lbn 2 + vt.rtf 2 = 0) := by
  have hz2 : vt.lbn 2 - vt.rtf 2 ≠ 0 := sub_ne_zero.2 hz
  have e : ∀ z c : K, (getMOrth vt).mulVec ![x, y, z, 1] 2 = c ↔
      -2 * z - (vt.lbn 2 + vt.rtf 2) = c * (vt.lbn 2 - vt.rtf 2) := by
    intro z c
    rw [getMOrth_mulVec]
    have e1 : (![2 / (vt.rtf 0 - vt.lbn 0) * x +
          (-1) * (vt.rtf 0 + vt.lbn 0) / (vt.rtf 0 - vt.lbn 0),
        2 / (vt.rtf 1 - vt.lbn 1) * y + (-1) * (vt.rtf 1 + vt.lbn 1) / (vt.rtf 1 - vt.lbn 1),
        -2 / (vt.lbn 2 - vt.rtf 2) * z + (-1) * (vt.lbn 2 + vt.rtf 2) / (vt.lbn 2 - vt.rtf 2),
        1] : Vec4 K) 2 =
        (-2 * z - (vt.lbn 2 + vt.rtf 2)) / (vt.lbn 2 - vt.rtf 2) := by
      simp
      field_simp
      ring
    rw [e1, div_eq_iff hz2]
  simp only [e]
  constructor
  · intro h0
    constructor
    · linear_combination (-2 : K) * h0
    · linear_combination (-2 : K) * h0
  · intro hn hf
    rcases hn with hn | hn
    · rcases hf with hf | hf
      · linear_combination (-1 / 2 : K) * hf
      · exfalso
        apply hz
        linear_combination (-1 / 4 : K) * hn + (1 / 4 : K) * hf
    · linear_combination (-1 / 2 : K) * hn

/-- C12 fails off the game's bounds: for the visible box with the game's left, right,
bottom, top and near plane but the far plane at z = -0.5, `getMOrth()` sends the corner
(l, b, n) to (-1, -1, -2) and the corner (r, t, f) to (1, 1, 0): X and Y reach the
faces of the cube, the depth planes z = n and z = f do not. -/
theorem getMOrth_depth_off :
    (getMOrth (ViewTransformations.create (![0, 0.5, 4] : Vec3 ℚ) ![-1.5, -1.5, 1.5]
        ![1.5, 1.5, -0.5])).mulVec ![-1.5, -1.5, 1.5, 1] = ![-1, -1, -2, 1] ∧
      (getMOrth (ViewTransformations.create (![0, 0.5, 4] : Vec3 ℚ) ![-1.5, -1.5, 1.5]
        ![1.5, 1.5, -0.5])).mulVec ![1.5, 1.5, -0.5, 1] = ![1, 1, 0, 1] := by
  constructor
  · rw [getMOrth_mulVec]
    funext i
    fin_cases i <;> simp [ViewTransformations.create] <;> norm_num
  · rw [getMOrth_mulVec]
    funext i
    fin_cases i <;> simp [ViewTransformations.create] <;> norm_num

end Daruma
